import Mathlib

/-!
Shallow embedding of the geant4-api instrumentation core, checked against
its natural-language specification.

Sources embedded here:
* `src/app/core/geant4_app/src/RunAction.cc` — the per-worker running sums
  (`AddEdep`), the end-of-run merge and statistics block
  (`EndOfRunAction`).
* `src/app/core/geant4_app/src/Analysis.cc` — `Book` / `Save` with the
  `fBooked` guard.
* `src/app/core/geant4_app/src/SensitiveDetector.cc` and
  `src/app/core/geant4_app/B2a/src/TrackerSD.cc` — the per-step hit
  capture (`ProcessHits`).
* `src/app/core/geant4_app/src/DetectorConstruction.cc` — GDML
  sensitive-volume discovery (`FindSensitiveVolumes`).
* `src/app/core/geant4_app/B2a/src/DetectorConstruction.cc` — parametric
  geometry construction (`DefineVolumes`) with the spacing/width check.

`G4double` values are embedded as `ℚ` (exact field arithmetic); the one
square root the code takes (`std::sqrt` in `EndOfRunAction`) is kept
symbolic: the accumulator-level data are computed in `ℚ` and the root is
applied as `Real.sqrt` in theorem statements only.
-/

/-- Per-worker accumulator state of `RunAction` (RunAction.hh lines 26-28):
the running sums `fEdep` and `fEdep2`. -/
structure RunAction where
  fEdep : ℚ
  fEdep2 : ℚ
deriving DecidableEq

/-- Embeds `RunAction::AddEdep` (RunAction.cc lines 71-74):
`fEdep += edep; fEdep2 += edep * edep;` — unconditional, no state check. -/
def RunAction.addEdep (r : RunAction) (edep : ℚ) : RunAction :=
  { fEdep := r.fEdep + edep, fEdep2 := r.fEdep2 + edep * edep }

/-- The zeroed accumulator produced by `BeginOfRunAction`'s
`accumulableManager->Reset()` (RunAction.cc lines 29-30), also the initial
state from the constructor (RunAction.cc lines 16-17). -/
def RunAction.resetAcc : RunAction := { fEdep := 0, fEdep2 := 0 }

/-- The accumulator a worker ends the run with after its events' deposits
`l` have been fed through `AddEdep` (one call per event, from
`EventAction::EndOfEventAction`). -/
def RunAction.accOf (l : List ℚ) : RunAction :=
  l.foldl RunAction.addEdep RunAction.resetAcc

/-- Modelled from the spec: `G4AccumulableManager::Merge()`
(RunAction.cc line 47) combines each worker's registered accumulables
into the master's; the framework code is external to this repository, and
the spec fixes its semantics as "Merged into a master accumulator at run
end (summed field-wise)". -/
def RunAction.mergeFrom (master worker : RunAction) : RunAction :=
  { fEdep := master.fEdep + worker.fEdep,
    fEdep2 := master.fEdep2 + worker.fEdep2 }

/-- The run statistics computed in `EndOfRunAction` (RunAction.cc lines
49-54 and 60-62). `rmsArg` is the clamped radicand the code feeds to
`std::sqrt`: `rms = edep2 - edep*edep/nofEvents; if (rms > 0.) rms =
std::sqrt(rms); else rms = 0.;` — so the printed rms is
`Real.sqrt rmsArg / n`, kept symbolic here. `meanEdep` is the printed
`edep/nofEvents`. -/
structure RunStatistics where
  totalEdep : ℚ
  meanEdep : ℚ
  rmsArg : ℚ
deriving DecidableEq

/-- The statistics block of `EndOfRunAction` (RunAction.cc lines 49-54)
evaluated on an accumulator and the run's `GetNumberOfEvent()` count. -/
def RunAction.deriveStats (acc : RunAction) (n : ℕ) : RunStatistics :=
  let edep := acc.fEdep
  let edep2 := acc.fEdep2
  let rms := edep2 - edep * edep / (n : ℚ)
  { totalEdep := edep,
    meanEdep := edep / (n : ℚ),
    rmsArg := if 0 < rms then rms else 0 }

/-- Effects the `Analysis` singleton performs on the underlying
`G4AnalysisManager` (Analysis.cc). -/
inductive AnaOp where
  | setFileName (name : String)
  | createH1 (name : String)
  | createH2 (name : String)
  | createNtuple
  | openFile
  | write
  | closeFile
deriving DecidableEq

/-- The `Analysis` singleton's own state (Analysis.hh lines 36-37). -/
structure Analysis where
  fOutputDir : String
  fBooked : Bool
deriving DecidableEq

/-- Embeds `Analysis::Book` (Analysis.cc lines 26-68): returns early when
`fBooked` is set; otherwise creates the histograms and the ntuple, opens
the file and sets `fBooked`. -/
def Analysis.book (a : Analysis) : Analysis × List AnaOp :=
  if a.fBooked then (a, [])
  else
    ({ a with fBooked := true },
     [AnaOp.setFileName (a.fOutputDir ++ "/output"),
      AnaOp.createH1 "Edep", AnaOp.createH1 "PosZ",
      AnaOp.createH2 "PosXY", AnaOp.createNtuple, AnaOp.openFile])

/-- Embeds `Analysis::Save` (Analysis.cc lines 70-79): writes and closes the
output file, then clears `fBooked`. -/
def Analysis.save (a : Analysis) : Analysis × List AnaOp :=
  ({ a with fBooked := false }, [AnaOp.write, AnaOp.closeFile])

/-- Observable end-of-run operations: the accumulable merge and the
analysis-manager calls made by `Analysis::Save`. -/
inductive RunOp where
  | merge
  | ana (op : AnaOp)
deriving DecidableEq

/-- Embeds `RunAction::EndOfRunAction` (RunAction.cc lines 41-69): if the run
processed zero events it returns immediately; otherwise it merges the
workers' accumulables into the master, computes the statistics from the
merged sums and the event count, and calls `Analysis::Save`. Returns the
statistics produced (if any), the analysis state, and the trace of
merge/analysis operations performed. -/
def endOfRunAction (nofEvents : ℕ) (workers : List RunAction)
    (analysis : Analysis) : Option RunStatistics × Analysis × List RunOp :=
  if nofEvents = 0 then (none, analysis, [])
  else
    let merged := workers.foldl RunAction.mergeFrom RunAction.resetAcc
    let saved := analysis.save
    (some (merged.deriveStats nofEvents), saved.1,
     RunOp.merge :: saved.2.map RunOp.ana)

section AccumulatorLemmas

/-- Folding `AddEdep` accumulates the sum and the sum of squares. -/
lemma foldl_addEdep (l : List ℚ) (a : RunAction) :
    l.foldl RunAction.addEdep a =
      { fEdep := a.fEdep + l.sum,
        fEdep2 := a.fEdep2 + (l.map fun x => x * x).sum } := by
  induction l generalizing a with
  | nil => simp
  | cons x xs ih =>
      simp only [List.foldl_cons, ih, RunAction.addEdep, List.sum_cons,
        List.map_cons, RunAction.mk.injEq]
      exact ⟨by ring, by ring⟩

/-- The final worker accumulator carries the sum and sum of squares of
its events' deposits. -/
lemma accOf_eq (l : List ℚ) :
    RunAction.accOf l =
      { fEdep := l.sum, fEdep2 := (l.map fun x => x * x).sum } := by
  simp [RunAction.accOf, foldl_addEdep, RunAction.resetAcc]

/-- Folding `mergeFrom` sums the accumulators field-wise. -/
lemma foldl_mergeFrom (accs : List RunAction) (a : RunAction) :
    accs.foldl RunAction.mergeFrom a =
      { fEdep := a.fEdep + (accs.map RunAction.fEdep).sum,
        fEdep2 := a.fEdep2 + (accs.map RunAction.fEdep2).sum } := by
  induction accs generalizing a with
  | nil => simp
  | cons x xs ih =>
      simp only [List.foldl_cons, ih, RunAction.mergeFrom, List.map_cons,
        List.sum_cons, RunAction.mk.injEq]
      exact ⟨by ring, by ring⟩

end AccumulatorLemmas

/-- C7: feeding a list of event deposits to a single accumulator via
`AddEdep` makes `fEdep` the arithmetic sum of the deposits, and any
permutation of the list yields the same final `fEdep`. -/
theorem addEdep_sum_perm_invariant (l : List ℚ) :
    (RunAction.accOf l).fEdep = l.sum ∧
      ∀ l' : List ℚ, l.Perm l' →
        (RunAction.accOf l').fEdep = (RunAction.accOf l).fEdep := by
  refine ⟨by simp [accOf_eq], ?_⟩
  intro l' h
  simp [accOf_eq, h.sum_eq]

/-- Witness for C7 at the concrete sequence `[1, 2]` and its permutation
`[2, 1]`. -/
theorem addEdep_sum_perm_invariant_witness :
    (RunAction.accOf [1, 2]).fEdep = ([1, 2] : List ℚ).sum ∧
      (RunAction.accOf [2, 1]).fEdep = (RunAction.accOf [1, 2]).fEdep :=
  ⟨(addEdep_sum_perm_invariant [1, 2]).1,
   (addEdep_sum_perm_invariant [1, 2]).2 [2, 1] (List.Perm.swap 2 1 [])⟩

/-- C1: merging k workers' final accumulators into the master field-wise,
in any order, gives the same accumulator — hence the same event count and
the same derived statistics (`sumEdep`, `sumEdepSquared`, `eventCount`,
mean, rms) — as feeding every underlying event deposit to one single
accumulator. -/
theorem mergeFrom_order_independent (workers perm : List (List ℚ))
    (h : workers.Perm perm) :
    (perm.map RunAction.accOf).foldl RunAction.mergeFrom RunAction.resetAcc
        = RunAction.accOf workers.flatten ∧
      (perm.map List.length).sum = workers.flatten.length ∧
      RunAction.deriveStats
          ((perm.map RunAction.accOf).foldl RunAction.mergeFrom
            RunAction.resetAcc)
          ((perm.map List.length).sum)
        = RunAction.deriveStats (RunAction.accOf workers.flatten)
            workers.flatten.length := by
  have hsum : ∀ {M : Type} [AddCommMonoid M] (f : List ℚ → M),
      (perm.map f).sum = (workers.map f).sum :=
    fun f => ((h.map f).sum_eq).symm
  have hfst : (perm.map (fun l : List ℚ => l.sum)).sum
      = workers.flatten.sum := by
    rw [hsum]; simp [List.sum_flatten]
  have hsnd : (perm.map (fun l : List ℚ => (l.map fun x => x * x).sum)).sum
      = (workers.flatten.map fun x => x * x).sum := by
    rw [hsum]; simp [List.map_flatten, List.sum_flatten, List.map_map,
      Function.comp_def]
  have hacc : (perm.map RunAction.accOf).foldl RunAction.mergeFrom
      RunAction.resetAcc = RunAction.accOf workers.flatten := by
    rw [foldl_mergeFrom, accOf_eq]
    simp only [RunAction.resetAcc, List.map_map, zero_add,
      RunAction.mk.injEq]
    constructor
    · simpa [Function.comp_def, accOf_eq] using hfst
    · simpa [Function.comp_def, accOf_eq] using hsnd
  have hcount : (perm.map List.length).sum = workers.flatten.length := by
    rw [hsum]; simp [List.length_flatten]
  exact ⟨hacc, hcount, by rw [hacc, hcount]⟩

/-- Witness for C1: two workers with deposit lists `[1]` and `[2]`,
merged in swapped order, match the single accumulator over `[1, 2]`. -/
theorem mergeFrom_order_independent_witness :
    ([[1], [2]] : List (List ℚ)).Perm [[2], [1]] ∧
      (([[2], [1]] : List (List ℚ)).map RunAction.accOf).foldl
          RunAction.mergeFrom RunAction.resetAcc
        = RunAction.accOf ([[1], [2]] : List (List ℚ)).flatten ∧
      (([[2], [1]] : List (List ℚ)).map List.length).sum
        = ([[1], [2]] : List (List ℚ)).flatten.length ∧
      RunAction.deriveStats
          ((([[2], [1]] : List (List ℚ)).map RunAction.accOf).foldl
            RunAction.mergeFrom RunAction.resetAcc)
          ((([[2], [1]] : List (List ℚ)).map List.length).sum)
        = RunAction.deriveStats
            (RunAction.accOf ([[1], [2]] : List (List ℚ)).flatten)
            ([[1], [2]] : List (List ℚ)).flatten.length :=
  ⟨by decide, mergeFrom_order_independent [[1], [2]] [[2], [1]] (by decide)⟩

/-- C2: for any accumulator and event count `N > 0`, the statistics block
of `EndOfRunAction` yields `totalEdep = sumEdep`,
`meanEdep = sumEdep / N`, and a printed rms equal to
`sqrt (max 0 (sumEdepSquared - sumEdep² / N)) / N`. -/
theorem deriveStats_formulas (acc : RunAction) (n : ℕ) (_hn : 0 < n) :
    (acc.deriveStats n).totalEdep = acc.fEdep ∧
      (acc.deriveStats n).meanEdep = acc.fEdep / (n : ℚ) ∧
      Real.sqrt ((acc.deriveStats n).rmsArg : ℝ) / (n : ℝ)
        = Real.sqrt (max 0 ((acc.fEdep2 : ℝ)
            - (acc.fEdep : ℝ) ^ 2 / (n : ℝ))) / (n : ℝ) := by
  refine ⟨rfl, rfl, ?_⟩
  have hcast : ((acc.fEdep2 - acc.fEdep * acc.fEdep / (n : ℚ) : ℚ) : ℝ)
      = (acc.fEdep2 : ℝ) - (acc.fEdep : ℝ) ^ 2 / (n : ℝ) := by
    push_cast
    ring
  simp only [RunAction.deriveStats]
  by_cases hpos : 0 < acc.fEdep2 - acc.fEdep * acc.fEdep / (n : ℚ)
  · rw [if_pos hpos, hcast, max_eq_right]
    rw [← hcast]
    exact_mod_cast hpos.le
  · rw [if_neg hpos, max_eq_left]
    · simp
    · rw [← hcast]
      exact_mod_cast (not_lt.mp hpos)

/-- Witness for C2 at the accumulator of deposits `[1, 2]` and `N = 2`. -/
theorem deriveStats_formulas_witness :
    ((RunAction.accOf [1, 2]).deriveStats 2).totalEdep
        = (RunAction.accOf [1, 2]).fEdep ∧
      ((RunAction.accOf [1, 2]).deriveStats 2).meanEdep
        = (RunAction.accOf [1, 2]).fEdep / ((2 : ℕ) : ℚ) ∧
      Real.sqrt (((RunAction.accOf [1, 2]).deriveStats 2).rmsArg : ℝ)
          / ((2 : ℕ) : ℝ)
        = Real.sqrt (max 0 (((RunAction.accOf [1, 2]).fEdep2 : ℝ)
            - ((RunAction.accOf [1, 2]).fEdep : ℝ) ^ 2 / ((2 : ℕ) : ℝ)))
            / ((2 : ℕ) : ℝ) :=
  deriveStats_formulas (RunAction.accOf [1, 2]) 2 (by decide)

/-- C6 counterexample: the claim says calling `AddEdep` after merge has
completed raises `InvalidStateError` rather than silently mutating the
sums. On a concrete merged accumulator (the merge of two workers' final
sums), `AddEdep` is not rejected: it silently changes `fEdep`. -/
theorem addEdep_after_merge_mutates :
    (((RunAction.accOf [1]).mergeFrom (RunAction.accOf [2])).addEdep 3
        ≠ (RunAction.accOf [1]).mergeFrom (RunAction.accOf [2])) ∧
      (((RunAction.accOf [1]).mergeFrom (RunAction.accOf [2])).addEdep
          3).fEdep
        = ((RunAction.accOf [1]).mergeFrom
            (RunAction.accOf [2])).fEdep + 3 := by
  have h1 : (RunAction.accOf [1]).mergeFrom (RunAction.accOf [2])
      = { fEdep := 3, fEdep2 := 5 } := by
    simp [accOf_eq, RunAction.mergeFrom]
    norm_num
  rw [h1]
  refine ⟨?_, by simp [RunAction.addEdep]⟩
  simp only [RunAction.addEdep, ne_eq, RunAction.mk.injEq, not_and]
  intro hc
  norm_num at hc

/-- C6 amended: `RunAction` implements no `Idle → Accumulating → Merged`
state machine and no `InvalidStateError`; `AddEdep` unconditionally adds
to the running sums in every state, so an out-of-sequence call with a
nonzero deposit silently mutates the accumulator instead of being
rejected. -/
theorem addEdep_unconditional (r : RunAction) (e : ℚ) (he : e ≠ 0) :
    r.addEdep e ≠ r := by
  intro hcontra
  have h1 : r.fEdep + e = r.fEdep := congrArg RunAction.fEdep hcontra
  exact he (by linarith)

/-- Witness for the amended C6 at a concrete state and deposit. -/
theorem addEdep_unconditional_witness :
    ((1 : ℚ) ≠ 0) ∧ RunAction.resetAcc.addEdep 1 ≠ RunAction.resetAcc :=
  ⟨by decide, addEdep_unconditional RunAction.resetAcc 1 (by decide)⟩

/-- C4 counterexample: the claim says deriving on event count 0 yields the
sentinel statistics mean = 0, rms = 0. At the concrete zero-event run the
code returns early and produces no statistics value at all — in
particular not the sentinel. -/
theorem endOfRun_zero_events_no_sentinel :
    (endOfRunAction 0 [RunAction.resetAcc]
        { fOutputDir := ".", fBooked := true }).1 = none ∧
      (endOfRunAction 0 [RunAction.resetAcc]
          { fOutputDir := ".", fBooked := true }).1
        ≠ some { totalEdep := 0, meanEdep := 0, rmsArg := 0 } := by
  decide

/-- C4 amended: a zero-event run takes the early-return branch of
`EndOfRunAction`: no division is performed and no statistics value (not
even a sentinel) is produced; the analysis state is untouched and no
merge or save operation runs. -/
theorem endOfRun_zero_events_early_return (workers : List RunAction)
    (analysis : Analysis) :
    endOfRunAction 0 workers analysis = (none, analysis, []) := by
  simp [endOfRunAction]

/-- C9 counterexample: the claim says `Analysis::Save` runs exactly once
per run, including a run that processed zero events. At a concrete
zero-event run `EndOfRunAction` returns before saving: the operation
trace is empty — no write, no close, no save at all. -/
theorem endOfRun_zero_events_skips_save :
    (endOfRunAction 0 []
        { fOutputDir := "out", fBooked := true }).2.2 = [] := by
  decide

/-- C9 amended: for a run with at least one event, `EndOfRunAction`
performs exactly one merge followed by exactly one `Analysis::Save`, and
that save writes then closes the output file (clearing `fBooked`) before
returning; a zero-event run skips merge, statistics and save entirely. -/
theorem endOfRun_save_once_after_merge (n : ℕ) (workers : List RunAction)
    (analysis : Analysis) (hn : 0 < n) :
    (endOfRunAction n workers analysis).2.2
        = [RunOp.merge, RunOp.ana AnaOp.write, RunOp.ana AnaOp.closeFile] ∧
      ((endOfRunAction n workers analysis).2.1).fBooked = false := by
  have hne : n ≠ 0 := Nat.pos_iff_ne_zero.mp hn
  simp [endOfRunAction, Analysis.save, hne]

/-- Witness for the amended C9 at a one-event run. -/
theorem endOfRun_save_once_after_merge_witness :
    (0 < 1) ∧
      ((endOfRunAction 1 [RunAction.resetAcc]
          { fOutputDir := ".", fBooked := true }).2.2
        = [RunOp.merge, RunOp.ana AnaOp.write, RunOp.ana AnaOp.closeFile] ∧
      ((endOfRunAction 1 [RunAction.resetAcc]
          { fOutputDir := ".", fBooked := true }).2.1).fBooked = false) :=
  ⟨by decide, endOfRun_save_once_after_merge 1 [RunAction.resetAcc]
    { fOutputDir := ".", fBooked := true } (by decide)⟩

/-- C10: `Analysis::Book` is idempotent between saves — after any call to
`Book` the `fBooked` flag is set, so a second `Book` returns the state
unchanged and performs no analysis-manager operation (no second file
open, no duplicate histogram or ntuple creation); only `Save` clears the
flag. -/
theorem book_idempotent_until_save (a : Analysis) :
    (a.book.1).book = (a.book.1, []) ∧
      (a.book.1).fBooked = true ∧
      (a.save.1).fBooked = false := by
  by_cases ha : a.fBooked <;>
    simp [Analysis.book, Analysis.save, ha]

/-- A 3-vector of `G4double` components. -/
structure G4ThreeVector where
  x : ℚ
  y : ℚ
  z : ℚ
deriving DecidableEq

/-- The data a `G4StepPoint` supplies to the hit constructors. -/
structure StepPoint where
  position : G4ThreeVector
  momentum : G4ThreeVector
  kineticEnergy : ℚ
  globalTime : ℚ
  localTime : ℚ
  copyNumber : ℤ
  processDefinedStep : Option String
deriving DecidableEq

/-- The data a `G4Track` supplies to the hit constructors. -/
structure G4Track where
  trackID : ℤ
  parentID : ℤ
  particleName : String
  particlePDG : ℤ
deriving DecidableEq

/-- The data of a `G4Step` read by `ProcessHits`. -/
structure G4Step where
  totalEnergyDeposit : ℚ
  track : G4Track
  preStepPoint : StepPoint
  postStepPoint : StepPoint
deriving DecidableEq

/-- Embeds `DetectorHit` (SensitiveDetector.hh / SensitiveDetector.cc lines
18-26): the record appended by `SensitiveDetector::ProcessHits`. -/
structure DetectorHit where
  fEventID : ℤ
  fTrackID : ℤ
  fParentID : ℤ
  fParticleName : String
  fParticlePDG : ℤ
  fPosition : G4ThreeVector
  fMomentum : G4ThreeVector
  fKineticEnergy : ℚ
  fEnergyDeposit : ℚ
  fGlobalTime : ℚ
  fLocalTime : ℚ
  fProcessName : String
deriving DecidableEq

/-- Embeds `SensitiveDetector::ProcessHits` (SensitiveDetector.cc lines 96-126):
skips the step when `edep <= 0`, otherwise fills one `DetectorHit` from
the track and pre-step point (process name from the post-step point when
defined, else the default `""`) and inserts it into the hits collection.
`eventID` is `G4RunManager`'s current event id. -/
def SensitiveDetector.processHits (eventID : ℤ) (step : G4Step)
    (coll : List DetectorHit) : Bool × List DetectorHit :=
  if step.totalEnergyDeposit ≤ 0 then (false, coll)
  else
    (true, coll ++
      [{ fEventID := eventID,
         fTrackID := step.track.trackID,
         fParentID := step.track.parentID,
         fParticleName := step.track.particleName,
         fParticlePDG := step.track.particlePDG,
         fPosition := step.preStepPoint.position,
         fMomentum := step.preStepPoint.momentum,
         fKineticEnergy := step.preStepPoint.kineticEnergy,
         fEnergyDeposit := step.totalEnergyDeposit,
         fGlobalTime := step.preStepPoint.globalTime,
         fLocalTime := step.preStepPoint.localTime,
         fProcessName := step.postStepPoint.processDefinedStep.getD "" }])

/-- Embeds `B2a::TrackerHit` (TrackerHit.hh lines 52-57). -/
structure TrackerHit where
  fTrackID : ℤ
  fChamberNb : ℤ
  fEdep : ℚ
  fPos : G4ThreeVector
  fTime : ℚ
  fParticleName : String
deriving DecidableEq

/-- Embeds `B2a::TrackerSD::ProcessHits` (TrackerSD.cc lines 41-60): skips the
step when `edep == 0.` (note: not `<= 0`), otherwise fills one
`TrackerHit` from the track, the pre-step touchable's copy number and the
post-step point, and inserts it. -/
def TrackerSD.processHits (step : G4Step) (coll : List TrackerHit) :
    Bool × List TrackerHit :=
  if step.totalEnergyDeposit = 0 then (false, coll)
  else
    (true, coll ++
      [{ fTrackID := step.track.trackID,
         fChamberNb := step.preStepPoint.copyNumber,
         fEdep := step.totalEnergyDeposit,
         fPos := step.postStepPoint.position,
         fTime := step.postStepPoint.globalTime,
         fParticleName := step.track.particleName }])

/-- A concrete step whose energy deposit is strictly negative. -/
def negStep : G4Step :=
  { totalEnergyDeposit := -1,
    track := { trackID := 1, parentID := 0, particleName := "e-",
               particlePDG := 11 },
    preStepPoint := { position := ⟨0, 0, 0⟩, momentum := ⟨0, 0, 1⟩,
                      kineticEnergy := 1, globalTime := 0, localTime := 0,
                      copyNumber := 0, processDefinedStep := none },
    postStepPoint := { position := ⟨0, 0, 1⟩, momentum := ⟨0, 0, 1⟩,
                       kineticEnergy := 1, globalTime := 1, localTime := 1,
                       copyNumber := 0, processDefinedStep := some "eIoni" } }

/-- C3 counterexample: the claim says every sensitive detector appends
zero hit records for a step whose deposit is ≤ 0. For the concrete step
with deposit −1 (which is ≤ 0), `TrackerSD::ProcessHits` appends exactly
one record, because its guard only rejects `edep == 0`. -/
theorem trackerSD_appends_on_negative_deposit :
    negStep.totalEnergyDeposit ≤ 0 ∧
      (TrackerSD.processHits negStep []).2.length = 1 := by
  constructor
  · show (-1 : ℚ) ≤ 0
    norm_num
  · have h : negStep.totalEnergyDeposit = (-1 : ℚ) := rfl
    simp [TrackerSD.processHits, h]

/-- C3 amended: `SensitiveDetector::ProcessHits` appends no record when
the step's deposit is ≤ 0 and exactly one when it is > 0, as claimed;
`TrackerSD::ProcessHits` instead appends no record only when the deposit
is exactly 0 and exactly one for any nonzero deposit — so the two agree
on the claim only for steps with nonnegative deposit. -/
theorem processHits_append_counts (eventID : ℤ) (step : G4Step)
    (collD : List DetectorHit) (collT : List TrackerHit) :
    ((SensitiveDetector.processHits eventID step collD).2.length =
        if 0 < step.totalEnergyDeposit then collD.length + 1
        else collD.length) ∧
      ((TrackerSD.processHits step collT).2.length =
        if step.totalEnergyDeposit = 0 then collT.length
        else collT.length + 1) := by
  constructor
  · by_cases h : step.totalEnergyDeposit ≤ 0
    · rw [SensitiveDetector.processHits, if_pos h, if_neg (not_lt.mpr h)]
    · rw [SensitiveDetector.processHits, if_neg h,
        if_pos (lt_of_not_le h)]
      simp
  · by_cases h : step.totalEnergyDeposit = 0
    · rw [TrackerSD.processHits, if_pos h, if_pos h]
    · rw [TrackerSD.processHits, if_neg h, if_neg h]
      simp

/-- Embeds `B2a::DetectorConstruction::DefineVolumes` (B2a DetectorConstruction.cc
lines 94-218), tracked at the level of the physical volumes it places, in
construction order. The code places the world (line 123), the target
(line 138) and the tracker envelope (line 155); then, only when
`fNbOfChambers > 0`, it checks `chamberSpacing < chamberWidth` and raises
the `FatalException` `G4Exception("InvalidSetup", "Width>Spacing")`
(lines 174-181), which aborts construction with the three volumes already
placed; otherwise it places one `Chamber_PV` per chamber (lines 183-201).
The error value carries the exception tag and the volumes existing at the
abort. -/
def defineVolumes (nbOfChambers : ℕ) (chamberSpacing chamberWidth : ℚ) :
    Except (String × List String) (List String) :=
  let vols := ["World", "Target", "Tracker"]
  if 0 < nbOfChambers ∧ chamberSpacing < chamberWidth then
    Except.error ("Width>Spacing", vols)
  else
    Except.ok (vols ++ (List.range nbOfChambers).map fun _ => "Chamber_PV")

/-- C5 counterexample: the claim says construction with spacing < width
raises `GeometryError` and constructs zero volumes. At the concrete
configuration (5 chambers, spacing 10, width 20) the fatal exception is
raised, but three volumes — world, target, tracker — are already
constructed at the abort, so the volume count is 3, not 0. -/
theorem defineVolumes_aborts_with_three_volumes :
    defineVolumes 5 10 20
        = Except.error ("Width>Spacing", ["World", "Target", "Tracker"]) ∧
      (["World", "Target", "Tracker"] : List String).length ≠ 0 := by
  constructor
  · have h : (10 : ℚ) < 20 := by norm_num
    simp [defineVolumes, h]
  · decide

/-- C5 amended: whenever at least one chamber is configured (the
repository fixes `fNbOfChambers = 5`) and the chamber spacing is strictly
smaller than the chamber width, geometry construction raises the fatal
`InvalidSetup` `GeometryError` before placing any chamber volume — but
the world, target and tracker volumes are already constructed when it
aborts. -/
theorem defineVolumes_invalid_setup (nbOfChambers : ℕ)
    (chamberSpacing chamberWidth : ℚ) (hnb : 0 < nbOfChambers)
    (hsw : chamberSpacing < chamberWidth) :
    defineVolumes nbOfChambers chamberSpacing chamberWidth
        = Except.error ("Width>Spacing", ["World", "Target", "Tracker"]) ∧
      "Chamber_PV" ∉ (["World", "Target", "Tracker"] : List String) := by
  refine ⟨by simp [defineVolumes, hnb, hsw], by decide⟩

/-- Witness for the amended C5 at 5 chambers, spacing 10, width 20. -/
theorem defineVolumes_invalid_setup_witness :
    ((0 < 5) ∧ (10 : ℚ) < 20) ∧
      (defineVolumes 5 10 20
          = Except.error ("Width>Spacing", ["World", "Target", "Tracker"]) ∧
        "Chamber_PV" ∉ (["World", "Target", "Tracker"] : List String)) :=
  ⟨⟨by decide, by norm_num⟩, defineVolumes_invalid_setup 5 10 20
    (by decide) (by norm_num)⟩

/-- A logical volume of the loaded geometry tree: its name, its GDML
auxiliary entries (type/value pairs), and its daughter volumes. -/
inductive GLV where
  | mk (name : String) (aux : List (String × String)) (daughters : List GLV)

/-- The volume's name (`lv->GetName()`). -/
def GLV.name : GLV → String
  | .mk n _ _ => n

/-- The mutable members of `DetectorConstruction` touched by
`FindSensitiveVolumes` (DetectorConstruction.hh): the
`fSensitiveVolumes` name vector and the `fLogicalVolumes` name→volume
map (a `std::map`, observed as its lookup function). -/
structure DCState where
  fSensitiveVolumes : List String
  fLogicalVolumes : String → Option GLV

/-- One matching auxiliary entry's effect (DetectorConstruction.cc lines
70-71): `fSensitiveVolumes.push_back(lv->GetName());
fLogicalVolumes[lv->GetName()] = lv;`. -/
def DCState.applyStep (s : DCState) (p : String × GLV) : DCState :=
  { fSensitiveVolumes := s.fSensitiveVolumes ++ [p.1],
    fLogicalVolumes := fun k =>
      if k = p.1 then some p.2 else s.fLogicalVolumes k }

/-- The `for (auto& aux : *auxList)` loop of `FindSensitiveVolumes`
(DetectorConstruction.cc lines 68-74): every entry whose type is
`"SensDet"` records the volume. -/
def visitAux (lv : GLV) : List (String × String) → DCState → DCState
  | [], s => s
  | e :: rest, s =>
      visitAux lv rest
        (if e.1 = "SensDet" then s.applyStep (lv.name, lv) else s)

mutual
/-- Embeds `DetectorConstruction::FindSensitiveVolumes`
(DetectorConstruction.cc lines 63-83): when the GDML parser is present,
scan the volume's auxiliary entries, then recurse into the daughters in
order. -/
def findSensitiveVolumes (fParser : Bool) (lv : GLV) (s : DCState) :
    DCState :=
  match lv with
  | .mk n aux daughters =>
      findSVdaughters fParser daughters
        (if fParser then visitAux (GLV.mk n aux daughters) aux s else s)
termination_by sizeOf lv

/-- The daughter loop of `FindSensitiveVolumes`
(DetectorConstruction.cc lines 79-82). -/
def findSVdaughters (fParser : Bool) (lvs : List GLV) (s : DCState) :
    DCState :=
  match lvs with
  | [] => s
  | d :: ds => findSVdaughters fParser ds (findSensitiveVolumes fParser d s)
termination_by sizeOf lvs
end

/-- The recordings of the auxiliary-entry loop. -/
def auxInserts (lv : GLV) : List (String × String) → List (String × GLV)
  | [] => []
  | e :: rest =>
      (if e.1 = "SensDet" then [(lv.name, lv)] else []) ++ auxInserts lv rest

mutual
/-- The sequence of (name, volume) recordings a traversal of `lv`
performs, in traversal order. -/
def inserts (fParser : Bool) (lv : GLV) : List (String × GLV) :=
  match lv with
  | .mk n aux daughters =>
      (if fParser then auxInserts (GLV.mk n aux daughters) aux else [])
        ++ insertsList fParser daughters
termination_by sizeOf lv

/-- The recordings performed on a list of daughters. -/
def insertsList (fParser : Bool) (lvs : List GLV) : List (String × GLV) :=
  match lvs with
  | [] => []
  | d :: ds => inserts fParser d ++ insertsList fParser ds
termination_by sizeOf lvs
end

/-- Apply a list of recordings to a `DCState` in order. -/
def applyAll (s : DCState) (L : List (String × GLV)) : DCState :=
  L.foldl DCState.applyStep s

lemma applyAll_append (s : DCState) (L1 L2 : List (String × GLV)) :
    applyAll s (L1 ++ L2) = applyAll (applyAll s L1) L2 := by
  unfold applyAll
  exact List.foldl_append _ _ _ _

lemma visitAux_eq (lv : GLV) (aux : List (String × String)) :
    ∀ s, visitAux lv aux s = applyAll s (auxInserts lv aux) := by
  induction aux with
  | nil => intro s; rfl
  | cons e rest ih =>
      intro s
      by_cases hc : e.1 = "SensDet" <;>
        simp [visitAux, auxInserts, hc, ih, applyAll]

mutual
/-- A traversal is the accumulated application of its recordings. -/
theorem findSV_eq (fParser : Bool) (lv : GLV) (s : DCState) :
    findSensitiveVolumes fParser lv s = applyAll s (inserts fParser lv) := by
  match lv with
  | .mk n aux daughters =>
      rw [findSensitiveVolumes, inserts,
        findSVdaughters_eq fParser daughters, applyAll_append]
      by_cases hp : fParser <;> simp [hp, visitAux_eq, applyAll]
termination_by sizeOf lv

/-- The daughter loop is the accumulated application of its recordings. -/
theorem findSVdaughters_eq (fParser : Bool) (lvs : List GLV) (s : DCState) :
    findSVdaughters fParser lvs s = applyAll s (insertsList fParser lvs) := by
  match lvs with
  | [] => simp [findSVdaughters, insertsList, applyAll]
  | d :: ds =>
      rw [findSVdaughters, insertsList, applyAll_append,
        findSV_eq fParser d, findSVdaughters_eq fParser ds]
termination_by sizeOf lvs
end

/-- The last value recorded for key `k` in a recording list (later
entries shadow earlier ones). -/
def lastVal : List (String × GLV) → String → Option GLV
  | [], _ => none
  | p :: L, k => (lastVal L k).or (if k = p.1 then some p.2 else none)

lemma applyAll_lvs (L : List (String × GLV)) :
    ∀ (s : DCState) (k : String),
      (applyAll s L).fLogicalVolumes k
        = (lastVal L k).or (s.fLogicalVolumes k) := by
  induction L with
  | nil => intro s k; simp [applyAll, lastVal]
  | cons p L ih =>
      intro s k
      have h1 : applyAll s (p :: L) = applyAll (s.applyStep p) L := rfl
      rw [h1, ih, lastVal]
      cases hl : lastVal L k <;>
        by_cases hk : k = p.1 <;>
          simp [DCState.applyStep, hl, hk, Option.or]

lemma applyAll_sens (L : List (String × GLV)) :
    ∀ s : DCState,
      (applyAll s L).fSensitiveVolumes
        = s.fSensitiveVolumes ++ L.map Prod.fst := by
  induction L with
  | nil => intro s; simp [applyAll]
  | cons p L ih =>
      intro s
      have h1 : applyAll s (p :: L) = applyAll (s.applyStep p) L := rfl
      rw [h1, ih]
      simp [DCState.applyStep]

/-- The fresh discovery state: a brand-new `DetectorConstruction` with an
empty `fSensitiveVolumes` vector and an empty `fLogicalVolumes` map. -/
def emptyDC : DCState :=
  { fSensitiveVolumes := [], fLogicalVolumes := fun _ => none }

/-- The GDML tree of the repository's shape: a world volume containing
one volume tagged `SensDet` (as the default phantom geometry is
registered, DetectorConstruction.cc lines 108-110). -/
def demoTree : GLV :=
  .mk "World" [] [.mk "Phantom" [("SensDet", "Phantom")] []]

/-- C8 counterexample: the claim says running discovery twice on the same
unchanged tree leaves the sensitive-volume list equal to the list after
the first traversal. On the concrete one-sensitive-volume tree the second
traversal appends `"Phantom"` again — the member vector is never cleared
— so the lists differ. -/
theorem findSensitiveVolumes_not_idempotent :
    (findSensitiveVolumes true demoTree
        (findSensitiveVolumes true demoTree emptyDC)).fSensitiveVolumes
      ≠ (findSensitiveVolumes true demoTree emptyDC).fSensitiveVolumes := by
  have h1 : (findSensitiveVolumes true demoTree emptyDC).fSensitiveVolumes
      = ["Phantom"] := by
    rw [findSV_eq, applyAll_sens]
    simp [demoTree, emptyDC, inserts, insertsList, auxInserts, GLV.name]
  have h2 : (findSensitiveVolumes true demoTree
      (findSensitiveVolumes true demoTree emptyDC)).fSensitiveVolumes
      = ["Phantom", "Phantom"] := by
    rw [findSV_eq, applyAll_sens, h1]
    simp [demoTree, inserts, insertsList, auxInserts, GLV.name]
  rw [h1, h2]
  decide

/-- C8 amended: discovery is deterministic but not idempotent on the
member state: a second traversal of the same unchanged tree leaves the
name→volume mapping identical to the first traversal's, but appends every
discovered sensitive name to `fSensitiveVolumes` a second time (the
vector is never cleared), so the list after the second traversal is the
first list extended by the names a fresh discovery would find. -/
theorem findSensitiveVolumes_second_traversal (fParser : Bool) (root : GLV)
    (s : DCState) :
    (findSensitiveVolumes fParser root
        (findSensitiveVolumes fParser root s)).fLogicalVolumes
      = (findSensitiveVolumes fParser root s).fLogicalVolumes ∧
    (findSensitiveVolumes fParser root
        (findSensitiveVolumes fParser root s)).fSensitiveVolumes
      = (findSensitiveVolumes fParser root s).fSensitiveVolumes
        ++ (findSensitiveVolumes fParser root emptyDC).fSensitiveVolumes := by
  constructor
  · funext k
    rw [findSV_eq, findSV_eq, applyAll_lvs, applyAll_lvs]
    cases hl : lastVal (inserts fParser root) k <;> simp [Option.or, hl]
  · rw [findSV_eq, findSV_eq, findSV_eq, applyAll_sens, applyAll_sens,
      applyAll_sens]
    simp [emptyDC]
